import Mathlib

set_option maxHeartbeats 1000000

/-! Verification of the case-classification program: the style catalog
`CASES`, the classifier `real_case`, the role-expectation resolver
`expected_case`, and the aggregation loop of the main driver. -/

/-- Regular expressions over characters, a shallow embedding of the
Python `re` patterns used by the program.  A character class is a
predicate on characters. -/
inductive Regex : Type
  | emp : Regex
  | eps : Regex
  | cls : (Char → Bool) → Regex
  | cat : Regex → Regex → Regex
  | alt : Regex → Regex → Regex
  | star : Regex → Regex

/-- Whether a regex accepts the empty string. -/
def Regex.nullable : Regex → Bool
  | .emp => false
  | .eps => true
  | .cls _ => false
  | .cat r1 r2 => r1.nullable && r2.nullable
  | .alt r1 r2 => r1.nullable || r2.nullable
  | .star _ => true

/-- Smart concatenation (simplifies the empty and epsilon regexes). -/
def Regex.mkCat : Regex → Regex → Regex
  | .emp, _ => .emp
  | _, .emp => .emp
  | .eps, r => r
  | r, .eps => r
  | r1, r2 => .cat r1 r2

/-- Smart alternation (simplifies the empty regex). -/
def Regex.mkAlt : Regex → Regex → Regex
  | .emp, r => r
  | r, .emp => r
  | r1, r2 => .alt r1 r2

/-- Brzozowski derivative of a regex by one character. -/
def Regex.deriv : Regex → Char → Regex
  | .emp, _ => .emp
  | .eps, _ => .emp
  | .cls p, c => if p c then .eps else .emp
  | .cat r1 r2, c =>
      if r1.nullable then Regex.mkAlt (Regex.mkCat (r1.deriv c) r2) (r2.deriv c)
      else Regex.mkCat (r1.deriv c) r2
  | .alt r1 r2, c => Regex.mkAlt (r1.deriv c) (r2.deriv c)
  | .star r, c => Regex.mkCat (r.deriv c) (.star r)

/-- Whether a regex accepts exactly the given character list. -/
def Regex.matchList (r : Regex) (l : List Char) : Bool :=
  (l.foldl Regex.deriv r).nullable

/-- Full-string matching, the embedding of Python `reg.fullmatch(s)`
viewed as a boolean test: the pattern must consume the whole string. -/
def fullmatch (r : Regex) (s : String) : Bool :=
  r.matchList s.data

/-- One-or-more repetition, the `+` regex operator. -/
def Regex.plus (r : Regex) : Regex := .cat r (.star r)

/-- A single literal character. -/
def Regex.chr (c : Char) : Regex := .cls (fun d => d == c)

/-- Character class `[A-Z]`. -/
def clUpper : Char → Bool := fun c => decide ('A' ≤ c) && decide (c ≤ 'Z')

/-- Character class `[a-z0-9]`. -/
def clLowerDigit : Char → Bool := fun c =>
  (decide ('a' ≤ c) && decide (c ≤ 'z')) || (decide ('0' ≤ c) && decide (c ≤ '9'))

/-- Character class `[a-z_0-9]` (also written `[_a-z0-9]` in the source). -/
def clSnake : Char → Bool := fun c =>
  (decide ('a' ≤ c) && decide (c ≤ 'z')) || c == '_' || (decide ('0' ≤ c) && decide (c ≤ '9'))

/-- Character class `[A-Z0-9_]` (also written `[_A-Z0-9]` in the source). -/
def clUpperSnake : Char → Bool := fun c =>
  clUpper c || (decide ('0' ≤ c) && decide (c ≤ '9')) || c == '_'

/-- Character class `[A-Z0-9]`. -/
def clUpperDigit : Char → Bool := fun c =>
  clUpper c || (decide ('0' ≤ c) && decide (c ≤ '9'))

/-- Character class `[0-9\.]`. -/
def clDigitDot : Char → Bool := fun c =>
  (decide ('0' ≤ c) && decide (c ≤ '9')) || c == '.'

/-- Pattern `[A-Z][a-z0-9]*([A-Z][a-z0-9]*)*` for label `MixedCase`. -/
def reMixedCase : Regex :=
  .cat (.cls clUpper) (.cat (.star (.cls clLowerDigit))
    (.star (.cat (.cls clUpper) (.star (.cls clLowerDigit)))))

/-- Pattern `[a-z_0-9]+` for label `snake_case`. -/
def reSnakeCase : Regex := Regex.plus (.cls clSnake)

/-- Pattern `[a-z0-9]+([A-Z][a-z0-9]*)*` for label `camelCase`. -/
def reCamelCase : Regex :=
  .cat (Regex.plus (.cls clLowerDigit))
    (.star (.cat (.cls clUpper) (.star (.cls clLowerDigit))))

/-- Pattern `[A-Z][a-z0-9]*(_[a-z0-9]+)*` for label `Mixed_snake_case`. -/
def reMixedSnakeLower : Regex :=
  .cat (.cls clUpper) (.cat (.star (.cls clLowerDigit))
    (.star (.cat (Regex.chr '_') (Regex.plus (.cls clLowerDigit)))))

/-- Pattern `[A-Z0-9_]+` for label `UPPER_CASE`. -/
def reUpperCase : Regex := Regex.plus (.cls clUpperSnake)

/-- Pattern `[A-Z][a-z0-9]*(_[A-Z][a-z0-9]*)*` for label `Mixed_Snake_Case`. -/
def reMixedSnakeUpper : Regex :=
  .cat (.cls clUpper) (.cat (.star (.cls clLowerDigit))
    (.star (.cat (Regex.chr '_') (.cat (.cls clUpper) (.star (.cls clLowerDigit))))))

/-- Sub-pattern `([a-z0-9]+[A-Z][a-z0-9]+|[a-z0-9]+)` of the
`snakeCamel_case` pattern. -/
def snakeCamelAtom : Regex :=
  .alt (.cat (Regex.plus (.cls clLowerDigit))
          (.cat (.cls clUpper) (Regex.plus (.cls clLowerDigit))))
       (Regex.plus (.cls clLowerDigit))

/-- Pattern `([a-z0-9]+[A-Z][a-z0-9]+|[a-z0-9]+)(_([a-z0-9]+[A-Z][a-z0-9]+|[a-z0-9]+))+`
for label `snakeCamel_case`. -/
def reSnakeCamel : Regex :=
  .cat snakeCamelAtom (Regex.plus (.cat (Regex.chr '_') snakeCamelAtom))

/-- Sub-pattern `([a-z0-9]+|[A-Z0-9]+)` of the `changing_CASE` pattern. -/
def changingAtom : Regex :=
  .alt (Regex.plus (.cls clLowerDigit)) (Regex.plus (.cls clUpperDigit))

/-- Pattern `([a-z0-9]+|[A-Z0-9]+)(_([a-z0-9]+|[A-Z0-9]+))+` for label
`changing_CASE`. -/
def reChangingCase : Regex :=
  .cat changingAtom (Regex.plus (.cat (Regex.chr '_') changingAtom))

/-- Sub-pattern `([A-Z0-9]+|[A-Z0-9]+)` — the alternation is duplicated
exactly as in the source — used by the `Py_CASES` and `LOWFINAL_CAse`
patterns. -/
def dupUpperAtom : Regex :=
  .alt (Regex.plus (.cls clUpperDigit)) (Regex.plus (.cls clUpperDigit))

/-- Pattern `Py[A-Z0-9]*(_([A-Z0-9]+|[A-Z0-9]+))+` for label `Py_CASES`. -/
def rePyCases : Regex :=
  .cat (Regex.chr 'P') (.cat (Regex.chr 'y') (.cat (.star (.cls clUpperDigit))
    (Regex.plus (.cat (Regex.chr '_') dupUpperAtom))))

/-- Pattern `[A-Z0-9]*(_([A-Z0-9]+|[A-Z0-9]+))*_[A-Z0-9]+[_a-z0-9]+` for
label `LOWFINAL_CAse`. -/
def reLowFinal : Regex :=
  .cat (.star (.cls clUpperDigit))
    (.cat (.star (.cat (Regex.chr '_') dupUpperAtom))
      (.cat (Regex.chr '_')
        (.cat (Regex.plus (.cls clUpperDigit)) (Regex.plus (.cls clSnake)))))

/-- Pattern `[A-Z0-9_]+v[0-9\.]+[_A-Z0-9]+` for label `VERSIONv1.1_CASE`. -/
def reVersion : Regex :=
  .cat (Regex.plus (.cls clUpperSnake)) (.cat (Regex.chr 'v')
    (.cat (Regex.plus (.cls clDigitDot)) (Regex.plus (.cls clUpperSnake))))

/-- Pattern `` (the empty pattern) for the fallback label `_`. -/
def reEmpty : Regex := .eps

/-- The style catalog `CASES` of the source: (pattern, label) pairs in
the source's fixed insertion order. -/
def CASES : List (Regex × String) :=
  [(reMixedCase, "MixedCase"),
   (reSnakeCase, "snake_case"),
   (reCamelCase, "camelCase"),
   (reMixedSnakeLower, "Mixed_snake_case"),
   (reUpperCase, "UPPER_CASE"),
   (reMixedSnakeUpper, "Mixed_Snake_Case"),
   (reSnakeCamel, "snakeCamel_case"),
   (reChangingCase, "changing_CASE"),
   (rePyCases, "Py_CASES"),
   (reLowFinal, "LOWFINAL_CAse"),
   (reVersion, "VERSIONv1.1_CASE"),
   (reEmpty, "_")]

/-- The embedding of Python `name.lstrip('_')`: drop every leading
underscore character. -/
def pyLstrip (s : String) : String := String.mk (s.data.dropWhile (fun c => c == '_'))

/-- The loop body of `real_case`: try each (pattern, label) entry in
order on the stripped name, return the first full match's label, and
raise (error) with the offending name when no entry matches. -/
def findCase : List (Regex × String) → String → Except String String
  | [], name => Except.error name
  | (reg, cas) :: rest, name =>
      if fullmatch reg (pyLstrip name) then Except.ok cas else findCase rest name

/-- The embedding of `real_case`: match a name with its case class. -/
def real_case (name : String) : Except String String := findCase CASES name

/-- A Python runtime value, restricted to the shapes the program's role
predicates distinguish: classes, functions, modules, the built-in
literal types tested by the `isinstance` predicate, and plain instances
of some class. -/
inductive PyVal : Type
  | pyClass : String → PyVal
  | pyFunc : String → PyVal
  | pyModule : String → PyVal
  | pyStr : String → PyVal
  | pyBytes : PyVal
  | pyInt : Int → PyVal
  | pyFloat : PyVal
  | pyList : PyVal
  | pyTuple : PyVal
  | pySet : PyVal
  | pyFrozenset : PyVal
  | pyDict : PyVal
  | pyInstance : String → PyVal
  deriving DecidableEq

/-- Python's `type(x)`: the runtime type of any value is a class
object (the class named `type` for classes themselves). -/
def pyType : PyVal → PyVal
  | .pyClass _ => .pyClass "type"
  | .pyFunc _ => .pyClass "function"
  | .pyModule _ => .pyClass "module"
  | .pyStr _ => .pyClass "str"
  | .pyBytes => .pyClass "bytes"
  | .pyInt _ => .pyClass "int"
  | .pyFloat => .pyClass "float"
  | .pyList => .pyClass "list"
  | .pyTuple => .pyClass "tuple"
  | .pySet => .pyClass "set"
  | .pyFrozenset => .pyClass "frozenset"
  | .pyDict => .pyClass "dict"
  | .pyInstance cls => .pyClass cls

/-- The embedding of `inspect.isclass`. -/
def inspect_isclass : PyVal → Bool
  | .pyClass _ => true
  | _ => false

/-- The embedding of `inspect.isfunction`. -/
def inspect_isfunction : PyVal → Bool
  | .pyFunc _ => true
  | _ => false

/-- The embedding of `inspect.ismodule`. -/
def inspect_ismodule : PyVal → Bool
  | .pyModule _ => true
  | _ => false

/-- The embedding of
`isinstance(x, (str, bytes, int, float, list, tuple, set, frozenset, dict))`. -/
def isinstance_builtin : PyVal → Bool
  | .pyStr _ => true
  | .pyBytes => true
  | .pyInt _ => true
  | .pyFloat => true
  | .pyList => true
  | .pyTuple => true
  | .pySet => true
  | .pyFrozenset => true
  | .pyDict => true
  | _ => false

/-- The role-predicate table `type_to_case` of the source, in its fixed
insertion order. -/
def type_to_case : List ((PyVal → Bool) × String) :=
  [(inspect_isclass, "MixedCase"),
   (inspect_isfunction, "snake_case"),
   (inspect_ismodule, "snake_case"),
   (fun x => isinstance_builtin x, "UPPER_CASE"),
   (fun x => inspect_isclass (pyType x), "UPPER_CASE")]

/-- The loop body of `expected_case`: try each (predicate, label) entry
in order, return the first matching predicate's label, and raise
(error) carrying the object, its runtime type and the library name when
no predicate matches. -/
def findExpected : List ((PyVal → Bool) × String) → PyVal → String →
    Except (PyVal × PyVal × String) String
  | [], obj, lib_name => Except.error (obj, pyType obj, lib_name)
  | (pred, cas) :: rest, obj, lib_name =>
      if pred obj then Except.ok cas else findExpected rest obj lib_name

/-- The embedding of `expected_case`: the case expected to name the
given object according to its type (the source's `lib_name` parameter
defaults to the empty string at the call sites we model explicitly). -/
def expected_case (obj : PyVal) (lib_name : String) :
    Except (PyVal × PyVal × String) String :=
  findExpected type_to_case obj lib_name

/-- A key path into the nested aggregation tables:
(library name, expected case, real case).  The source nests three
defaultdict levels; we key a flat table by the triple. -/
abbrev Key : Type := String × String × String

/-- An element of a membership set: the `(type(obj), obj_name)` pair
the main loop adds to `acc`. -/
abbrev Entry : Type := PyVal × String

/-- One observation scanned by the main loop: the library it came from, the
object, and the object's name. -/
structure Obs : Type where
  lib : String
  obj : PyVal
  name : String
  deriving DecidableEq

/-- The two parallel aggregation tables of the main loop: `acc` maps a
key path to its membership set of (type, name) pairs, `counter` maps
the same key path to its occurrence count, and `keys` records which key
paths have been touched (the paths the defaultdicts have materialised). -/
structure AggState : Type where
  keys : Finset Key
  acc : Key → Finset Entry
  counter : Key → Nat

/-- The empty aggregation state: both defaultdicts are empty, so every
set defaults to empty and every count to zero. -/
def initState : AggState := ⟨∅, fun _ => ∅, fun _ => 0⟩

/-- Pointwise update of a table at one key. -/
def upd {α : Type} (f : Key → α) (k : Key) (v : α) : Key → α :=
  fun k2 => if k2 = k then v else f k2

/-- One iteration of the main loop on symbol `x`:
`acc[lib][expected_case(obj)][real_case(obj_name)].add((type(obj), obj_name))`
and `counter[lib][expected_case(obj)][real_case(obj_name)] += 1`.
A `ValueError` raised by `expected_case` or `real_case` aborts the run,
modelled by `none`. -/
def record (s : AggState) (x : Obs) : Option AggState :=
  match expected_case x.obj "", real_case x.name with
  | Except.ok exp, Except.ok obs =>
      some { keys := insert (x.lib, exp, obs) s.keys,
             acc := upd s.acc (x.lib, exp, obs)
                      (insert (pyType x.obj, x.name) (s.acc (x.lib, exp, obs))),
             counter := upd s.counter (x.lib, exp, obs)
                      (s.counter (x.lib, exp, obs) + 1) }
  | _, _ => none

/-- The main loop run from a given state over a list of symbols. -/
def runAggFrom (s : AggState) : List Obs → Option AggState
  | [] => some s
  | x :: xs =>
      match record s x with
      | some s2 => runAggFrom s2 xs
      | none => none

/-- The main loop run from the empty state. -/
def runAgg (l : List Obs) : Option AggState := runAggFrom initState l

/-- The final aggregation state of a run (the empty state when the run
aborted). -/
def aggOf (l : List Obs) : AggState := (runAgg l).getD initState

/-- The expected case of an object as the main loop computes it
(`expected_case(obj)` with the default empty library name), totalised
with an arbitrary default on the unreachable error branch. -/
def expOf (obj : PyVal) : String :=
  match expected_case obj "" with
  | Except.ok c => c
  | Except.error _ => ""

/-- The observed case of a name, totalised with an arbitrary default on
the error branch (a run containing such a name aborts anyway). -/
def obsOf (name : String) : String :=
  match real_case name with
  | Except.ok c => c
  | Except.error _ => ""

/-- The key path a symbol's observation is recorded under. -/
def pathOf (x : Obs) : Key := (x.lib, expOf x.obj, obsOf x.name)

/-- The membership entry a symbol's observation contributes. -/
def entryOf (x : Obs) : Entry := (pyType x.obj, x.name)

/-- A concrete three-observation run used to witness claim C9 (it
contains a duplicated symbol, exercising the duplicate-entry case). -/
def witnessRun : List Obs :=
  [⟨"csv", PyVal.pyFunc "reader", "reader"⟩,
   ⟨"csv", PyVal.pyClass "Dialect", "Dialect"⟩,
   ⟨"csv", PyVal.pyFunc "reader", "reader"⟩]

/-- Deriving the empty regex by any word yields the empty regex. -/
theorem foldl_deriv_emp (l : List Char) : l.foldl Regex.deriv Regex.emp = Regex.emp := by
  induction l with
  | nil => rfl
  | cons c cs ih => simpa [Regex.deriv] using ih

/-- The empty pattern full-matches exactly the empty string. -/
theorem fullmatch_eps_iff (s : String) : fullmatch Regex.eps s = true ↔ s = "" := by
  obtain ⟨l⟩ := s
  cases l with
  | nil => exact ⟨fun _ => rfl, fun _ => rfl⟩
  | cons c cs =>
    constructor
    · intro h
      exfalso
      unfold fullmatch Regex.matchList at h
      simp only [List.foldl_cons, Regex.deriv, foldl_deriv_emp, Regex.nullable] at h
      cases h
    · intro h
      cases congrArg String.data h

/-- `findCase` is exactly "label of the first catalog entry whose
pattern full-matches the stripped name, or an error carrying the name". -/
theorem findCase_eq_find (cs : List (Regex × String)) (name : String) :
    findCase cs name =
      match cs.find? (fun rc => fullmatch rc.1 (pyLstrip name)) with
      | some rc => Except.ok rc.2
      | none => Except.error name := by
  induction cs with
  | nil => rfl
  | cons rc rest ih =>
    obtain ⟨reg, cas⟩ := rc
    by_cases h : fullmatch reg (pyLstrip name) = true
    · simp [findCase, List.find?, h]
    · simp only [Bool.not_eq_true] at h
      simp [findCase, List.find?, h, ih]

/-- `expected_case` never reaches its failure branch: the object's
expected case is always returned (helper shared by several claims). -/
theorem expected_case_eq_ok (obj : PyVal) (lib : String) :
    expected_case obj lib = Except.ok (expOf obj) := by
  cases obj <;> rfl

/-- Claim C1: for every identifier string, `real_case` first removes
all leading underscores, then tests the catalog entries in their fixed
order and returns the label of the first pattern that full-matches the
stripped identifier (`List.find?` is first-match in list order, so no
later entry is consulted after the first full match); it errors with
the identifier when no entry full-matches. -/
theorem real_case_first_full_match (name : String) :
    real_case name =
      match CASES.find? (fun rc => fullmatch rc.1 (pyLstrip name)) with
      | some rc => Except.ok rc.2
      | none => Except.error name :=
  findCase_eq_find CASES name

/-- Claim C2 counterexample: the catalog is NOT universal — no entry
full-matches the stripped identifier "kebab-case", and `real_case`
raises (errors) on it, so the failure branch is reachable. -/
theorem no_universal_fallback_cex :
    (CASES.all fun rc => !fullmatch rc.1 (pyLstrip "kebab-case")) = true ∧
    real_case "kebab-case" = Except.error "kebab-case" :=
  ⟨rfl, rfl⟩

/-- Claim C2 amended: the catalog's final entry is the empty pattern,
which full-matches only the empty stripped identifier; it is not a
universal fallback, and `real_case` does raise on some inputs (for
example "kebab-case"). -/
theorem fallback_matches_only_empty :
    (∀ s : String, fullmatch (CASES.getD 11 (Regex.emp, "")).1 s = true ↔ s = "") ∧
    (CASES.getD 11 (Regex.emp, "")).2 = "_" ∧ CASES.length = 12 ∧
    real_case "kebab-case" = Except.error "kebab-case" := by
  refine ⟨fun s => ?_, rfl, rfl, rfl⟩
  exact fullmatch_eps_iff s

/-- Claim C3: `real_case` errors, carrying the offending identifier,
exactly when no catalog pattern full-matches the stripped identifier;
the fallback label `_` is returned exactly for identifiers consisting
entirely of underscores (or empty); and identifier strings exist for
which `real_case` fails rather than returning `_`. -/
theorem classifier_failure_spec :
    (∀ name : String, real_case name = Except.error name ↔
        ∀ rc ∈ CASES, fullmatch rc.1 (pyLstrip name) = false) ∧
    (∀ name : String, real_case name = Except.ok "_" ↔ ∀ c ∈ name.data, c = '_') ∧
    real_case "space case" = Except.error "space case" := by
  refine ⟨fun name => ?_, fun name => ?_, rfl⟩
  · rw [real_case, findCase_eq_find]
    cases hf : CASES.find? (fun rc => fullmatch rc.1 (pyLstrip name)) with
    | none =>
      constructor
      · intro _ rc hmem
        have h := List.find?_eq_none.mp hf rc hmem
        simpa using h
      · intro _; rfl
    | some rc =>
      constructor
      · intro h
        exact Except.noConfusion h
      · intro hall
        have hp := List.find?_some hf
        have hmem := List.mem_of_find?_eq_some hf
        rw [hall rc hmem] at hp
        cases hp
  · constructor
    · intro h
      rw [real_case, findCase_eq_find] at h
      cases hf : CASES.find? (fun rc => fullmatch rc.1 (pyLstrip name)) with
      | none => rw [hf] at h; exact Except.noConfusion h
      | some rc =>
        rw [hf] at h
        have hlab : rc.2 = "_" := by
          simpa using h
        have hp := List.find?_some hf
        have hmem := List.mem_of_find?_eq_some hf
        simp only [CASES, List.mem_cons, List.not_mem_nil, or_false] at hmem
        rcases hmem with rfl | rfl | rfl | rfl | rfl | rfl | rfl | rfl | rfl | rfl | rfl | rfl
        all_goals first
          | exact absurd hlab (by decide)
          | skip
        have hempty : pyLstrip name = "" := (fullmatch_eps_iff (pyLstrip name)).mp hp
        have hdrop : name.data.dropWhile (fun c => c == '_') = [] :=
          congrArg String.data hempty
        intro c hc
        have hcu := List.dropWhile_eq_nil_iff.mp hdrop c hc
        simpa using hcu
    · intro h
      have hdrop : name.data.dropWhile (fun c => c == '_') = [] := by
        rw [List.dropWhile_eq_nil_iff]
        intro c hc
        simpa using h c hc
      have hempty : pyLstrip name = "" := by
        rw [pyLstrip, hdrop]
      rw [real_case, findCase_eq_find]
      simp only [hempty]
      rfl

/-- Claim C4 counterexample: in the catalog's fixed order the
`Py_CASES` entry (index 8) does NOT precede the `UPPER_CASE` entry
(index 4). -/
theorem catalog_order_cex :
    ¬ ((CASES.map Prod.snd).indexOf "Py_CASES" <
        (CASES.map Prod.snd).indexOf "UPPER_CASE") ∧
    (CASES.map Prod.snd).indexOf "Py_CASES" = 8 ∧
    (CASES.map Prod.snd).indexOf "UPPER_CASE" = 4 := by
  refine ⟨?_, rfl, rfl⟩
  decide

/-- Claim C4 amended: in the catalog's fixed order the generic
`UPPER_CASE` pattern (index 4) precedes the special Py-prefixed pattern
`Py_CASES` (index 8), and the empty-pattern fallback entry (label `_`)
is the last of the twelve entries. -/
theorem catalog_order_amended :
    (CASES.map Prod.snd).indexOf "UPPER_CASE" = 4 ∧
    (CASES.map Prod.snd).indexOf "Py_CASES" = 8 ∧
    CASES.length = 12 ∧ CASES.getD 11 (Regex.emp, "") = (reEmpty, "_") :=
  ⟨rfl, rfl, rfl, rfl⟩

/-- Claim C5: every style label appearing in the catalog classifies as
itself. -/
theorem catalog_self_consistent (L : String) (h : L ∈ CASES.map Prod.snd) :
    real_case L = Except.ok L := by
  simp only [CASES, List.map_cons, List.map_nil, List.mem_cons, List.not_mem_nil,
    or_false] at h
  rcases h with rfl | rfl | rfl | rfl | rfl | rfl | rfl | rfl | rfl | rfl | rfl | rfl <;> rfl

/-- Witness for claim C5 at the concrete label "camelCase". -/
theorem catalog_self_consistent_witness :
    "camelCase" ∈ CASES.map Prod.snd ∧ real_case "camelCase" = Except.ok "camelCase" :=
  ⟨by simp [CASES], catalog_self_consistent "camelCase" (by simp [CASES])⟩

/-- Claim C6: the classifier's documented example classifications,
including digits inside snake_case and leading-underscore stripping. -/
theorem classifier_examples :
    real_case "snake_case_two_more" = Except.ok "snake_case" ∧
    real_case "UPPER_CASE_TWO_MORE" = Except.ok "UPPER_CASE" ∧
    real_case "camelCaseTwoMore" = Except.ok "camelCase" ∧
    real_case "MixedCaseTwoMore" = Except.ok "MixedCase" ∧
    real_case "snake_42case" = Except.ok "snake_case" ∧
    real_case "__hadoken" = Except.ok "snake_case" :=
  ⟨rfl, rfl, rfl, rfl, rfl, rfl⟩

/-- Claim C7: catalog precedence on ambiguous inputs mixing underscores
with uppercase segments or inner capitals. -/
theorem classifier_ambiguous_examples :
    real_case "barry_as_FLUFL" = Except.ok "changing_CASE" ∧
    real_case "this_isAtest" = Except.ok "snakeCamel_case" ∧
    real_case "this_isAnother_one" = Except.ok "snakeCamel_case" :=
  ⟨rfl, rfl, rfl⟩

/-- Claim C8: `expected_case` tests its role predicates in the fixed
order of `type_to_case` (type/class, function, module, built-in
literal instance, plain instance) and returns the first match's label —
MixedCase for a class, snake_case for a function, snake_case for a
module, UPPER_CASE for a built-in literal instance, UPPER_CASE for a
plain instance; when no predicate matches it errors carrying the
object, its runtime type, and the library name. -/
theorem expected_case_first_match :
    (∀ (obj : PyVal) (lib : String),
      expected_case obj lib =
        match type_to_case.find? (fun pc => pc.1 obj) with
        | some pc => Except.ok pc.2
        | none => Except.error (obj, pyType obj, lib)) ∧
    (∀ (obj : PyVal) (lib : String),
      expected_case obj lib =
        Except.ok (if inspect_isclass obj then "MixedCase"
          else if inspect_isfunction obj then "snake_case"
          else if inspect_ismodule obj then "snake_case"
          else if isinstance_builtin obj then "UPPER_CASE"
          else "UPPER_CASE")) := by
  constructor
  · intro obj lib
    cases obj <;> rfl
  · intro obj lib
    cases obj <;> rfl

/-- Claim C10: the last role predicate — the object's runtime type is a
class — holds for every object, so `expected_case` always returns a
label and its failure branch is unreachable. -/
theorem expected_case_never_fails :
    ∀ (obj : PyVal) (lib : String),
      inspect_isclass (pyType obj) = true ∧
      expected_case obj lib = Except.ok (expOf obj) := by
  intro obj lib
  cases obj <;> exact ⟨rfl, rfl⟩

/-- Main-loop invariant, generalised over the starting state: after a
successful run, each key path's count grew by the number of
observations recorded under it, its membership set by those
observations' (type, name) entries, exactly the touched key paths were
added, and every observation's name classified successfully. -/
theorem runAggFrom_spec (l : List Obs) :
    ∀ s0 s : AggState, runAggFrom s0 l = some s →
      (∀ k : Key, s.counter k =
        s0.counter k + l.countP (fun x => decide (pathOf x = k))) ∧
      (∀ k : Key, s.acc k =
        s0.acc k ∪ ((l.filter (fun x => decide (pathOf x = k))).map entryOf).toFinset) ∧
      s.keys = s0.keys ∪ (l.map pathOf).toFinset ∧
      (∀ x ∈ l, ∃ c, real_case x.name = Except.ok c) := by
  induction l with
  | nil =>
    intro s0 s h
    obtain rfl : s0 = s := by simpa [runAggFrom] using h
    exact ⟨fun k => by simp, fun k => by simp, by simp, by simp⟩
  | cons x xs ih =>
    intro s0 s h
    simp only [runAggFrom] at h
    cases hrec : record s0 x with
    | none => rw [hrec] at h; exact Option.noConfusion h
    | some s1 =>
      rw [hrec] at h
      simp only [record, expected_case_eq_ok] at hrec
      cases hobs : real_case x.name with
      | error e => rw [hobs] at hrec; exact Option.noConfusion hrec
      | ok obs =>
        rw [hobs] at hrec
        have hpath : pathOf x = (x.lib, expOf x.obj, obs) := by
          simp [pathOf, obsOf, hobs]
        have hs1 := (Option.some.inj hrec).symm
        have hc1 : s1.counter = upd s0.counter (pathOf x) (s0.counter (pathOf x) + 1) := by
          rw [hs1]; simp [hpath]
        have ha1 : s1.acc = upd s0.acc (pathOf x) (insert (entryOf x) (s0.acc (pathOf x))) := by
          rw [hs1]; simp [hpath, entryOf]
        have hk1 : s1.keys = insert (pathOf x) s0.keys := by
          rw [hs1]; simp [hpath]
        obtain ⟨ihc, iha, ihk, ihall⟩ := ih s1 s h
        refine ⟨fun k => ?_, fun k => ?_, ?_, ?_⟩
        · rw [ihc, hc1, List.countP_cons]
          unfold upd
          by_cases hk : k = pathOf x
          · subst hk
            simp only [if_pos rfl, decide_eq_true_eq]
            simp
            omega
          · have hk2 : ¬ pathOf x = k := fun hh => hk hh.symm
            simp [hk, hk2]
        · rw [iha, ha1, List.filter_cons]
          unfold upd
          by_cases hk : k = pathOf x
          · subst hk
            simp [Finset.insert_union, Finset.union_insert]
          · have hk2 : ¬ pathOf x = k := fun hh => hk hh.symm
            simp [hk, hk2]
        · rw [ihk, hk1, List.map_cons, List.toFinset_cons, Finset.insert_union,
            Finset.union_insert]
        · intro y hy
          rcases List.mem_cons.mp hy with rfl | hmem
          · exact ⟨obs, hobs⟩
          · exact ihall y hmem

/-- Summing, over the distinct keys of a list that satisfy a predicate,
the number of occurrences of each key, counts the list elements whose
key satisfies the predicate. -/
theorem sum_countP_eq (pl : List Key) (P : Key → Prop) [DecidablePred P] :
    ∑ k in pl.toFinset.filter (fun k => P k), pl.countP (fun p => decide (p = k)) =
      pl.countP (fun p => decide (P p)) := by
  induction pl with
  | nil => simp
  | cons q pl ih =>
    simp only [List.countP_cons, List.toFinset_cons, Finset.filter_insert]
    rw [Finset.sum_add_distrib]
    by_cases hq : P q
    · rw [if_pos hq]
      have hsum2 : ∑ k in insert q (pl.toFinset.filter (fun k => P k)),
          (if decide (q = k) = true then 1 else 0) = 1 := by
        simp only [decide_eq_true_eq]
        rw [Finset.sum_ite_eq]
        simp
      rw [hsum2]
      by_cases hmem : q ∈ pl.toFinset
      · have hqS : q ∈ pl.toFinset.filter (fun k => P k) :=
          Finset.mem_filter.mpr ⟨hmem, hq⟩
        rw [Finset.insert_eq_self.mpr hqS, ih]
        simp [hq]
      · have hqS : q ∉ pl.toFinset.filter (fun k => P k) := by
          intro hin
          exact hmem (Finset.mem_filter.mp hin).1
        rw [Finset.sum_insert hqS]
        have hzero : pl.countP (fun p => decide (p = q)) = 0 := by
          rw [List.countP_eq_zero]
          intro a hal
          simp only [decide_eq_true_eq]
          intro heq
          exact hmem (List.mem_toFinset.mpr (heq ▸ hal))
        rw [hzero, ih]
        simp [hq]
    · rw [if_neg hq]
      have hsum2 : ∑ k in pl.toFinset.filter (fun k => P k),
          (if decide (q = k) = true then 1 else 0) = 0 := by
        simp only [decide_eq_true_eq]
        rw [Finset.sum_ite_eq]
        have : q ∉ pl.toFinset.filter (fun k => P k) := by
          intro hin
          exact hq (Finset.mem_filter.mp hin).2
        simp [this]
      rw [hsum2, ih]
      simp [hq]

/-- Claim C9: after any successfully recorded sequence of observations,
for every library and expected style, the counters over the observed
styles of the materialised key paths sum to the number of observations
of that library whose expected style is that style; and at every
materialised key path both tables exist, with the membership set's
cardinality at most the counter, with equality when no two observations
at that path yielded the same (type, name) entry. -/
theorem aggregation_invariant (l : List Obs) (h : (runAgg l).isSome = true) :
    (∀ lib exp : String,
      ∑ k in (aggOf l).keys.filter (fun k => k.1 = lib ∧ k.2.1 = exp),
        (aggOf l).counter k =
      (l.filter (fun x => decide (x.lib = lib ∧ expOf x.obj = exp))).length) ∧
    (∀ k ∈ (aggOf l).keys,
      ((aggOf l).acc k).card ≤ (aggOf l).counter k ∧
      (((l.filter (fun x => decide (pathOf x = k))).map entryOf).Nodup →
        ((aggOf l).acc k).card = (aggOf l).counter k)) := by
  have hrun : runAgg l = some (aggOf l) := by
    cases hr : runAgg l with
    | none => rw [hr] at h; cases h
    | some s => simp [aggOf, hr]
  obtain ⟨hc, ha, hk, _⟩ := runAggFrom_spec l initState (aggOf l) hrun
  have hc0 : ∀ k : Key, (aggOf l).counter k = l.countP (fun x => decide (pathOf x = k)) := by
    intro k
    rw [hc k]
    simp [initState]
  have ha0 : ∀ k : Key, (aggOf l).acc k =
      ((l.filter (fun x => decide (pathOf x = k))).map entryOf).toFinset := by
    intro k
    rw [ha k]
    simp [initState]
  have hk0 : (aggOf l).keys = (l.map pathOf).toFinset := by
    rw [hk]
    simp [initState]
  constructor
  · intro lib exp
    rw [hk0]
    have hcong : ∑ k in (l.map pathOf).toFinset.filter (fun k => k.1 = lib ∧ k.2.1 = exp),
        (aggOf l).counter k =
        ∑ k in (l.map pathOf).toFinset.filter (fun k => k.1 = lib ∧ k.2.1 = exp),
        (l.map pathOf).countP (fun p => decide (p = k)) := by
      refine Finset.sum_congr rfl fun k _ => ?_
      rw [hc0 k, List.countP_map]
      rfl
    rw [hcong, sum_countP_eq (l.map pathOf) (fun k => k.1 = lib ∧ k.2.1 = exp),
      List.countP_map, List.countP_eq_length_filter]
    rfl
  · intro k hkmem
    rw [ha0 k, hc0 k]
    constructor
    · calc ((l.filter (fun x => decide (pathOf x = k))).map entryOf).toFinset.card
          ≤ ((l.filter (fun x => decide (pathOf x = k))).map entryOf).length :=
            List.toFinset_card_le _
        _ = (l.filter (fun x => decide (pathOf x = k))).length := List.length_map _ _
        _ = l.countP (fun x => decide (pathOf x = k)) :=
            (List.countP_eq_length_filter _ _).symm
    · intro hnd
      rw [List.toFinset_card_of_nodup hnd, List.length_map, ← List.countP_eq_length_filter]

/-- Witness for claim C9 at the concrete run `witnessRun`. -/
theorem aggregation_invariant_witness :
    ((runAgg witnessRun).isSome = true) ∧
    ((∀ lib exp : String,
      ∑ k in (aggOf witnessRun).keys.filter (fun k => k.1 = lib ∧ k.2.1 = exp),
        (aggOf witnessRun).counter k =
      (witnessRun.filter (fun x => decide (x.lib = lib ∧ expOf x.obj = exp))).length) ∧
    (∀ k ∈ (aggOf witnessRun).keys,
      ((aggOf witnessRun).acc k).card ≤ (aggOf witnessRun).counter k ∧
      (((witnessRun.filter (fun x => decide (pathOf x = k))).map entryOf).Nodup →
        ((aggOf witnessRun).acc k).card = (aggOf witnessRun).counter k))) :=
  ⟨rfl, aggregation_invariant witnessRun rfl⟩

